import Mathlib

/-!
Verification of the file-management subsystem of the Manager-Dashboard
repository (src/collabo-buddy-suddy-sync/src/components/FileManager.tsx).

The component's pure helpers and the state transitions of its event
handlers are embedded as Lean functions.  JavaScript strings are modelled
as Lean strings (lists of characters); the single-character split used by
the source (String.split with a one-character separator) is modelled by
splitOnChar; toLowerCase / trim are modelled character-wise (ASCII, which
covers every string the component compares).  The external Supabase
storage client is an opaque collaborator: its per-call success or failure
enters the model as an explicit outcome parameter, and its public-URL
computation as an uninterpreted injection of the key.  Toasts and state
updates become explicit event lists and returned state.
-/

namespace FileManager

/-- Splitting a character list at every occurrence of a separator
character, keeping empty pieces, exactly as JavaScript's
String.split with a one-character separator does on the underlying
character sequence. -/
def splitOnChar (c : Char) : List Char → List (List Char)
  | [] => [[]]
  | x :: xs =>
    match splitOnChar c xs with
    | [] => [[]]
    | s :: rest => if x = c then [] :: s :: rest else (x :: s) :: rest

theorem splitOnChar_ne_nil (c : Char) (l : List Char) : splitOnChar c l ≠ [] := by
  cases l with
  | nil => simp [splitOnChar]
  | cons x xs =>
    cases h : splitOnChar c xs with
    | nil => simp [splitOnChar, h]
    | cons s rest => by_cases hx : x = c <;> simp [splitOnChar, h, hx]

theorem splitOnChar_of_not_mem (c : Char) (l : List Char) (h : c ∉ l) :
    splitOnChar c l = [l] := by
  induction l with
  | nil => rfl
  | cons x xs ih =>
    simp only [List.mem_cons, not_or] at h
    simp [splitOnChar, ih h.2, Ne.symm h.1]

theorem splitOnChar_append (c : Char) (l₁ l₂ : List Char) (h : c ∉ l₁) :
    splitOnChar c (l₁ ++ c :: l₂) = l₁ :: splitOnChar c l₂ := by
  induction l₁ with
  | nil =>
    obtain ⟨s, rest, hs⟩ := List.exists_cons_of_ne_nil (splitOnChar_ne_nil c l₂)
    simp [splitOnChar, hs]
  | cons x xs ih =>
    simp only [List.mem_cons, not_or] at h
    simp [splitOnChar, ih h.2, Ne.symm h.1]

/-- Character-wise lower-casing, modelling String.prototype.toLowerCase on
the ASCII strings the component compares. -/
def toLowerStr (s : String) : String :=
  String.mk (s.data.map Char.toLower)

/-- Whitespace trimming from both ends, modelling String.prototype.trim. -/
def trimStr (s : String) : String :=
  String.mk (((s.data.dropWhile Char.isWhitespace).reverse.dropWhile
    Char.isWhitespace).reverse)

/-- The lowercased result of filename.split(dot).pop() from getFileType:
the final dot-separated segment of the filename (the whole filename when
it contains no dot), lower-cased. -/
def extOf (filename : String) : String :=
  toLowerStr (String.mk ((splitOnChar '.' filename.data).getLastD []))

/-- The extension table of getFileType, flattened. -/
def knownExts : List String :=
  ["pdf", "doc", "docx", "jpg", "jpeg", "png", "gif", "svg",
   "mp4", "avi", "mov", "wmv", "mp3", "wav", "flac",
   "zip", "rar", "7z", "js", "ts", "jsx", "tsx", "html", "css"]

/-- getFileType from FileManager.tsx: classify a filename by the
lowercased final dot-separated segment. -/
def getFileType (filename : String) : String :=
  let ext := extOf filename
  if ext ∈ ["pdf", "doc", "docx"] then "document"
  else if ext ∈ ["jpg", "jpeg", "png", "gif", "svg"] then "image"
  else if ext ∈ ["mp4", "avi", "mov", "wmv"] then "video"
  else if ext ∈ ["mp3", "wav", "flac"] then "audio"
  else if ext ∈ ["zip", "rar", "7z"] then "archive"
  else if ext ∈ ["js", "ts", "jsx", "tsx", "html", "css"] then "code"
  else "other"

/-- getFolderFromPath from FileManager.tsx: the first slash-separated
segment of the path when the path contains a slash, else the Root
sentinel. -/
def getFolderFromPath (path : String) : String :=
  let parts := splitOnChar '/' path.data
  if parts.length > 1 then String.mk (parts.headD []) else "Root"

/-- Models the external storage client's public-URL computation
(supabase getPublicUrl): some function of the key.  Its exact shape is
irrelevant to every claim. -/
def getFileUrl (path : String) : String :=
  "https://storage/project-files/" ++ path

/-- The FileItem interface of FileManager.tsx.  uploadedAt is an abstract
timestamp (JavaScript Date values enter the model as naturals). -/
structure FileItem where
  id : String
  name : String
  size : Nat
  type : String
  uploadedAt : Nat
  uploadedBy : String
  folder : Option String
  tags : List String
  url : Option String
  path : Option String
deriving DecidableEq, Repr

/-- One entry of the storage client's listing, as consumed by loadFiles:
id and updated_at may be absent, metadata.size may be absent. -/
structure StorageEntry where
  id : Option String
  name : String
  metadataSize : Option Nat
  updatedAt : Option Nat
deriving DecidableEq, Repr

/-- The JavaScript expression user?.email or the string Unknown: an
absent or empty (falsy) email yields Unknown. -/
def userName (email : Option String) : String :=
  match email with
  | some e => if e = "" then "Unknown" else e
  | none => "Unknown"

/-- The per-entry mapping of loadFiles: build a FileItem from one
storage-listing entry (nowT models Date.now at listing time). -/
def loadItem (email : Option String) (nowT : Nat) (e : StorageEntry) : FileItem :=
  { id := match e.id with
      | some i => if i = "" then e.name else i
      | none => e.name
    name := e.name
    size := e.metadataSize.getD 0
    type := getFileType e.name
    uploadedAt := e.updatedAt.getD nowT
    uploadedBy := userName email
    folder := some (getFolderFromPath e.name)
    tags := []
    url := some (getFileUrl e.name)
    path := some e.name }

/-- loadFiles from FileManager.tsx: the listing fetched from storage
replaces the whole in-memory listing, entrywise mapped by loadItem. -/
def loadFiles (email : Option String) (nowT : Nat) (entries : List StorageEntry) :
    List FileItem :=
  entries.map (loadItem email nowT)

/-- The seed folder list of the component. -/
def folders : List String :=
  ["Documents", "Design", "Images", "Videos", "Code", "Audio"]

/-- One file blob selected for upload: name and byte size. -/
structure UploadFile where
  name : String
  size : Nat
deriving DecidableEq, Repr

/-- The observable effects of one upload batch: per-file progress
reports, per-file failure toasts, the aggregate success toast, and the
closing of the upload panel. -/
inductive UEvent where
  | progress (value : ℚ)
  | failToast (filename : String)
  | successToast (count : Nat)
  | panelClosed
deriving DecidableEq, Repr

def progressPayload : UEvent → Option ℚ
  | .progress v => some v
  | _ => none

def failPayload : UEvent → Option String
  | .failToast s => some s
  | _ => none

def successPayload : UEvent → Option Nat
  | .successToast n => some n
  | _ => none

/-- The destination key computed per file in handleFileUpload: the bare
filename when no folder is selected (the all sentinel), otherwise the
selected folder, a slash, and the filename. -/
def mkKey (sel : String) (fname : String) : String :=
  if sel = "all" then fname else sel ++ "/" ++ fname

/-- The FileItem built by handleFileUpload for one successfully uploaded
file, from the blob metadata and the storage key returned by the upload
call. -/
def mkUploadedItem (sel : String) (email : Option String) (now : Nat)
    (f : UploadFile) (key : String) : FileItem :=
  { id := key
    name := f.name
    size := f.size
    type := getFileType f.name
    uploadedAt := now
    uploadedBy := userName email
    folder := some (if sel = "all" then "Root" else sel)
    tags := []
    url := some (getFileUrl key)
    path := some key }

/-- The sequential per-file loop of handleFileUpload.  Each batch element
carries the storage client's outcome for that file (true = the upload
call succeeded).  On failure the loop emits the per-file failure toast
and continues, skipping the progress update; on success it accumulates
the new record and emits the progress report computed from the file's
position i in the batch. -/
def uploadLoop (sel : String) (email : Option String) (now : Nat) (total : Nat) :
    List (UploadFile × Bool) → Nat → List FileItem × List UEvent
  | [], _ => ([], [])
  | (f, ok) :: rest, i =>
    let r := uploadLoop sel email now total rest (i + 1)
    if ok then
      (mkUploadedItem sel email now f (mkKey sel f.name) :: r.1,
        UEvent.progress (((i : ℚ) + 1) / (total : ℚ) * 100) :: r.2)
    else
      (r.1, UEvent.failToast f.name :: r.2)

/-- handleFileUpload from FileManager.tsx: an empty selection returns
immediately; otherwise the batch is processed sequentially, the
accumulated records are prepended to the previous listing, one aggregate
success toast reports the number of accumulated records, and the upload
panel closes. -/
def handleFileUpload (sel : String) (email : Option String) (now : Nat)
    (batch : List (UploadFile × Bool)) (prev : List FileItem) :
    List FileItem × List UEvent :=
  if batch.isEmpty then (prev, [])
  else
    let r := uploadLoop sel email now batch.length batch 0
    (r.1 ++ prev, r.2 ++ [UEvent.successToast r.1.length, UEvent.panelClosed])

/-- The observable effects of one delete invocation: the storage remove
call (with the key it was issued on) and the outcome toast. -/
inductive DEvent where
  | removeCall (key : String)
  | deleteFailToast (name : String)
  | deleteSuccessToast (name : String)
deriving DecidableEq, Repr

/-- The key passed to the storage remove call: file.path or file.name in
JavaScript, so an absent or empty (falsy) path falls back to the name. -/
def deleteKey (f : FileItem) : String :=
  match f.path with
  | some p => if p = "" then f.name else p
  | none => f.name

/-- handleFileDelete from FileManager.tsx.  removeOk models the storage
client's remove outcome per key.  An id not found in the listing returns
without any effect; otherwise remove is called on the record's key, and
the listing is filtered by id only when the call succeeds. -/
def handleFileDelete (removeOk : String → Bool) (files : List FileItem)
    (fileId : String) : List FileItem × List DEvent :=
  match files.find? (fun f => f.id == fileId) with
  | none => (files, [])
  | some f =>
    let key := deleteKey f
    if removeOk key then
      (files.filter (fun g => !(g.id == fileId)),
        [DEvent.removeCall key, DEvent.deleteSuccessToast f.name])
    else
      (files, [DEvent.removeCall key, DEvent.deleteFailToast f.name])

/-- The observable effects of one folder-creation attempt. -/
inductive FEvent where
  | errorToast
  | folderCreatedToast (name : String)
deriving DecidableEq, Repr

/-- handleFolderCreate from FileManager.tsx: reject (error toast, folder
list unchanged) when the trimmed name is empty or the untrimmed name is
already present, case-sensitively; otherwise append the untrimmed name
and toast success. -/
def handleFolderCreate (fs : List String) (newFolderName : String) :
    List String × List FEvent :=
  if trimStr newFolderName = "" then (fs, [FEvent.errorToast])
  else if newFolderName ∈ fs then (fs, [FEvent.errorToast])
  else (fs ++ [newFolderName], [FEvent.folderCreatedToast newFolderName])

/-- The needle list matches the front of the hay list. -/
def leadMatch : List Char → List Char → Bool
  | _, [] => true
  | [], _ :: _ => false
  | a :: as, b :: bs => (a == b) && leadMatch as bs

/-- Substring containment on character lists, modelling
String.prototype.includes: the needle matches at some position of the
hay. -/
def containsList : List Char → List Char → Bool
  | [], needle => leadMatch [] needle
  | a :: as, needle => leadMatch (a :: as) needle || containsList as needle

/-- hay.toLowerCase().includes(needle.toLowerCase()) from the search
filter. -/
def includesCI (hay needle : String) : Bool :=
  containsList (toLowerStr hay).data (toLowerStr needle).data

/-- The search predicate of filteredFiles: the display name or some tag
contains the query, case-insensitively. -/
def matchesSearch (q : String) (f : FileItem) : Bool :=
  includesCI f.name q || f.tags.any (fun t => includesCI t q)

/-- The folder predicate of filteredFiles: the all sentinel passes
everything, otherwise the record's folder must equal the selection. -/
def matchesFolder (sel : String) (f : FileItem) : Bool :=
  sel == "all" || f.folder == some sel

/-- filteredFiles from FileManager.tsx: the derived view of the listing
under the search query and folder selection. -/
def filteredFiles (files : List FileItem) (q sel : String) : List FileItem :=
  files.filter (fun f => matchesSearch q f && matchesFolder sel f)

/-- The unit table of formatFileSize. -/
def sizes : List String := ["Bytes", "KB", "MB", "GB"]

/-- parseFloat(x.toFixed(2)) on a nonnegative value: round to two
decimal places (half away from zero, which for nonnegative arguments is
half up) and drop trailing zeros, i.e. the resulting number. -/
def round2 (q : ℚ) : ℚ := (⌊q * 100 + 1 / 2⌋ : ℚ) / 100

/-- formatFileSize from FileManager.tsx, with Math.floor(Math.log bytes /
Math.log 1024) modelled as the exact base-1024 integer logarithm
(Nat.log) and the rendered string as the displayed number together with
the selected entry of the unit table (none when the computed index falls
outside the table, where JavaScript renders the undefined value). -/
def formatFileSize (bytes : Nat) : ℚ × Option String :=
  if bytes = 0 then (0, some "Bytes")
  else
    let i := Nat.log 1024 bytes
    (round2 ((bytes : ℚ) / 1024 ^ i), sizes[i]?)

/-- The path-derivation invariant of claim C9: whenever the record has a
path, its folder field is the folder derived from that path. -/
def folderInvariant (f : FileItem) : Prop :=
  ∀ p, f.path = some p → f.folder = some (getFolderFromPath p)

/-- Substring containment as a proposition: the needle occurs
contiguously somewhere in the hay. -/
def substrOf (needle hay : List Char) : Prop :=
  ∃ l₁ l₂, hay = l₁ ++ needle ++ l₂

/-- A concrete record used to instantiate the delete theorems. -/
def sampleFile : FileItem :=
  { id := "Design/report.pdf"
    name := "report.pdf"
    size := 2048
    type := "document"
    uploadedAt := 0
    uploadedBy := "alice"
    folder := some "Design"
    tags := []
    url := some (getFileUrl "Design/report.pdf")
    path := some "Design/report.pdf" }

/-- A concrete mixed upload batch (one failing file, one succeeding
file) used to instantiate the upload theorems. -/
def demoBatch : List (UploadFile × Bool) :=
  [(⟨"a.txt", 10⟩, false), (⟨"b.txt", 20⟩, true)]

/-- C2 counterexample: the filename pdf contains no dot, so it has no
extension, yet getFileType classifies it as document rather than other,
because split-pop returns the whole dotless filename. -/
theorem getFileType_noExt_cex :
    ('.' ∉ "pdf".data) ∧ getFileType "pdf" = "document" ∧
      getFileType "pdf" ≠ "other" :=
  ⟨by decide, by decide, by decide⟩

/-- C2 (amended): the category is a pure deterministic function of the
lowercased final dot-separated segment of the filename (the whole
lowercased filename when it contains no dot), always one of the seven
categories, and any segment outside the known extension table maps to
other. -/
theorem getFileType_spec (s t : String) :
    getFileType s ∈ ["document", "image", "video", "audio", "archive", "code", "other"] ∧
    (extOf s = extOf t → getFileType s = getFileType t) ∧
    (extOf s ∉ knownExts → getFileType s = "other") := by
  refine ⟨?_, ?_, ?_⟩
  · unfold getFileType
    dsimp only
    split_ifs <;> simp
  · intro h
    unfold getFileType
    rw [h]
  · intro h
    unfold getFileType
    dsimp only
    generalize extOf s = x at h ⊢
    split_ifs with h1 h2 h3 h4 h5 h6
    · exfalso; apply h; simp at h1
      rcases h1 with rfl | rfl | rfl <;> decide
    · exfalso; apply h; simp at h2
      rcases h2 with rfl | rfl | rfl | rfl | rfl <;> decide
    · exfalso; apply h; simp at h3
      rcases h3 with rfl | rfl | rfl | rfl <;> decide
    · exfalso; apply h; simp at h4
      rcases h4 with rfl | rfl | rfl <;> decide
    · exfalso; apply h; simp at h5
      rcases h5 with rfl | rfl | rfl <;> decide
    · exfalso; apply h; simp at h6
      rcases h6 with rfl | rfl | rfl | rfl | rfl | rfl <;> decide
    · rfl

/-- Witness for the amended C2 theorem at concrete filenames. -/
theorem getFileType_spec_wit :
    getFileType "A.PDF" = getFileType "b.pdf" ∧ getFileType "notes.xyz" = "other" :=
  ⟨(getFileType_spec "A.PDF" "b.pdf").2.1 (by decide),
   (getFileType_spec "notes.xyz" "notes.xyz").2.2 (by decide)⟩

/-- C8: folder creation leaves the folder list unchanged and toasts an
error exactly when the submitted name trims to empty or duplicates an
existing name case-sensitively; otherwise it appends the name and toasts
success. -/
theorem handleFolderCreate_spec (fs : List String) (name : String) :
    (handleFolderCreate fs name).1 =
      (if trimStr name ≠ "" ∧ name ∉ fs then fs ++ [name] else fs) ∧
    ((handleFolderCreate fs name).2 = [FEvent.errorToast] ↔
      trimStr name = "" ∨ name ∈ fs) ∧
    ((handleFolderCreate fs name).2 = [FEvent.folderCreatedToast name] ↔
      trimStr name ≠ "" ∧ name ∉ fs) := by
  by_cases h1 : trimStr name = "" <;> by_cases h2 : name ∈ fs <;>
    simp [handleFolderCreate, h1, h2]

/-- C10: any name that trims to a nonempty string and is not
character-for-character present is accepted and appended untrimmed, so
names differing from existing folders only by surrounding whitespace are
accepted. -/
theorem handleFolderCreate_untrimmed (fs : List String) (name : String)
    (h1 : trimStr name ≠ "") (h2 : name ∉ fs) :
    handleFolderCreate fs name = (fs ++ [name], [FEvent.folderCreatedToast name]) := by
  simp [handleFolderCreate, h1, h2]

/-- Witness for C10: creating a name that is Design with a leading blank
succeeds over the seed folder list even though Design is present, so the
folder list then holds two distinct names equal after trimming. -/
theorem handleFolderCreate_untrimmed_wit :
    handleFolderCreate folders " Design" =
      (folders ++ [" Design"], [FEvent.folderCreatedToast " Design"]) ∧
    trimStr " Design" = "Design" ∧ "Design" ∈ folders ∧ " Design" ≠ "Design" :=
  ⟨handleFolderCreate_untrimmed folders " Design" (by decide) (by decide),
   by decide, by decide, by decide⟩

/-- C5: deleting an identity that no record of the listing carries is a
no-op: the listing is returned unchanged and no event occurs, so no
toast is shown and no storage remove call is issued. -/
theorem handleFileDelete_absent (removeOk : String → Bool) (files : List FileItem)
    (fileId : String) (h : ∀ f ∈ files, f.id ≠ fileId) :
    handleFileDelete removeOk files fileId = (files, []) := by
  have hf : files.find? (fun f => f.id == fileId) = none := by
    rw [List.find?_eq_none]
    intro f hfmem
    simpa using h f hfmem
  simp [handleFileDelete, hf]

/-- Witness for C5 on a concrete listing and an unknown identity. -/
theorem handleFileDelete_absent_wit :
    handleFileDelete (fun _ => true) [sampleFile] "missing-id" = ([sampleFile], []) :=
  handleFileDelete_absent (fun _ => true) [sampleFile] "missing-id" (by decide)

/-- C6: when a record with the requested identity is found, delete calls
the storage remove with the record's path (falling back to its name when
the path is absent); on backend failure the listing is unchanged and a
failure toast names the file; on success exactly the records with that
identity are removed and a success toast names the file. -/
theorem handleFileDelete_present (removeOk : String → Bool) (files : List FileItem)
    (fileId : String) (f : FileItem)
    (hf : files.find? (fun g => g.id == fileId) = some f) :
    (f.path = none → deleteKey f = f.name) ∧
    (∀ p, f.path = some p → p ≠ "" → deleteKey f = p) ∧
    DEvent.removeCall (deleteKey f) ∈ (handleFileDelete removeOk files fileId).2 ∧
    (removeOk (deleteKey f) = false →
      (handleFileDelete removeOk files fileId).1 = files ∧
      (handleFileDelete removeOk files fileId).2 =
        [DEvent.removeCall (deleteKey f), DEvent.deleteFailToast f.name]) ∧
    (removeOk (deleteKey f) = true →
      (handleFileDelete removeOk files fileId).1 =
        files.filter (fun g => !(g.id == fileId)) ∧
      (∀ g, g ∈ (handleFileDelete removeOk files fileId).1 ↔
        g ∈ files ∧ g.id ≠ fileId) ∧
      (handleFileDelete removeOk files fileId).2 =
        [DEvent.removeCall (deleteKey f), DEvent.deleteSuccessToast f.name]) := by
  refine ⟨?_, ?_, ?_, ?_, ?_⟩
  · intro hp
    simp [deleteKey, hp]
  · intro p hp hne
    simp [deleteKey, hp, hne]
  · cases hro : removeOk (deleteKey f) <;> simp [handleFileDelete, hf, hro]
  · intro hro
    simp [handleFileDelete, hf, hro]
  · intro hro
    refine ⟨by simp [handleFileDelete, hf, hro], ?_,
      by simp [handleFileDelete, hf, hro]⟩
    intro g
    simp [handleFileDelete, hf, hro, List.mem_filter]

/-- Witness for C6: deleting the sample record from a singleton listing
with a succeeding backend removes it and emits the remove call followed
by the success toast. -/
theorem handleFileDelete_present_wit :
    (handleFileDelete (fun _ => true) [sampleFile] "Design/report.pdf").1 =
      [sampleFile].filter (fun g => !(g.id == "Design/report.pdf")) ∧
    (handleFileDelete (fun _ => true) [sampleFile] "Design/report.pdf").2 =
      [DEvent.removeCall (deleteKey sampleFile),
       DEvent.deleteSuccessToast sampleFile.name] :=
  ⟨((handleFileDelete_present (fun _ => true) [sampleFile] "Design/report.pdf"
      sampleFile (by decide)).2.2.2.2 rfl).1,
   ((handleFileDelete_present (fun _ => true) [sampleFile] "Design/report.pdf"
      sampleFile (by decide)).2.2.2.2 rfl).2.2⟩

theorem leadMatch_nil (hay : List Char) : leadMatch hay [] = true := by
  cases hay <;> rfl

theorem containsList_nil (hay : List Char) : containsList hay [] = true := by
  cases hay <;> simp [containsList, leadMatch_nil]

theorem leadMatch_iff (hay needle : List Char) :
    leadMatch hay needle = true ↔ ∃ t, hay = needle ++ t := by
  induction needle generalizing hay with
  | nil => simp [leadMatch_nil]
  | cons b bs ih =>
    cases hay with
    | nil => simp [leadMatch]
    | cons a as => simp [leadMatch, ih]

theorem substrOf_cons (needle : List Char) (a : Char) (as : List Char) :
    substrOf needle (a :: as) ↔ (∃ t, a :: as = needle ++ t) ∨ substrOf needle as := by
  constructor
  · rintro ⟨l₁, l₂, h⟩
    cases l₁ with
    | nil => exact Or.inl ⟨l₂, by simpa using h⟩
    | cons c l₁ =>
      simp only [List.cons_append, List.cons.injEq] at h
      exact Or.inr ⟨l₁, l₂, h.2⟩
  · rintro (⟨t, ht⟩ | ⟨l₁, l₂, h⟩)
    · exact ⟨[], t, by simpa using ht⟩
    · exact ⟨a :: l₁, l₂, by simp [h]⟩

theorem containsList_iff (hay needle : List Char) :
    containsList hay needle = true ↔ substrOf needle hay := by
  induction hay with
  | nil =>
    simp only [containsList, leadMatch_iff, substrOf]
    constructor
    · rintro ⟨t, ht⟩
      exact ⟨[], t, by simpa using ht⟩
    · rintro ⟨l₁, l₂, h⟩
      refine ⟨l₂, ?_⟩
      rcases List.append_eq_nil.mp (List.append_eq_nil.mp h.symm).1 with ⟨rfl, rfl⟩
      simpa using h
  | cons a as ih =>
    rw [substrOf_cons]
    simp [containsList, leadMatch_iff, ih, Bool.or_eq_true]

/-- C4: membership in the filtered view is exactly the conjunction of
the case-insensitive search predicate (display name or some tag contains
the query as a substring of the lowercased strings) and the folder
predicate (the all sentinel passes everything), and the empty query
matches every record. -/
theorem filteredFiles_spec (files : List FileItem) (q sel : String) (f : FileItem) :
    (f ∈ filteredFiles files q sel ↔
      f ∈ files ∧
      (substrOf (toLowerStr q).data (toLowerStr f.name).data ∨
        ∃ t ∈ f.tags, substrOf (toLowerStr q).data (toLowerStr t).data) ∧
      (sel = "all" ∨ f.folder = some sel)) ∧
    matchesSearch "" f = true := by
  constructor
  · simp [filteredFiles, List.mem_filter, matchesSearch, matchesFolder, includesCI,
      Bool.and_eq_true, Bool.or_eq_true, List.any_eq_true, containsList_iff,
      and_assoc]
  · have hq : (toLowerStr "").data = [] := rfl
    simp [matchesSearch, includesCI, hq, containsList_nil]

theorem uploadLoop_items (sel : String) (email : Option String) (now total : Nat)
    (bs : List (UploadFile × Bool)) (i : Nat) :
    (uploadLoop sel email now total bs i).1 =
      (bs.filter (fun p => p.2)).map
        (fun p => mkUploadedItem sel email now p.1 (mkKey sel p.1.name)) := by
  induction bs generalizing i with
  | nil => rfl
  | cons p rest ih =>
    obtain ⟨f, ok⟩ := p
    cases ok <;> simp [uploadLoop, ih, List.filter_cons]

theorem uploadLoop_success (sel : String) (email : Option String) (now total : Nat)
    (bs : List (UploadFile × Bool)) (i : Nat) :
    (uploadLoop sel email now total bs i).2.filterMap successPayload = [] := by
  induction bs generalizing i with
  | nil => rfl
  | cons p rest ih =>
    obtain ⟨f, ok⟩ := p
    cases ok <;> simp [uploadLoop, ih, successPayload, List.filterMap_cons]

theorem uploadLoop_fails (sel : String) (email : Option String) (now total : Nat)
    (bs : List (UploadFile × Bool)) (i : Nat) :
    (uploadLoop sel email now total bs i).2.filterMap failPayload =
      (bs.filter (fun p => !p.2)).map (fun p => p.1.name) := by
  induction bs generalizing i with
  | nil => rfl
  | cons p rest ih =>
    obtain ⟨f, ok⟩ := p
    cases ok <;> simp [uploadLoop, ih, failPayload, List.filterMap_cons, List.filter_cons]

theorem uploadLoop_progress (sel : String) (email : Option String) (now total : Nat)
    (bs : List (UploadFile × Bool)) (i : Nat) :
    (uploadLoop sel email now total bs i).2.filterMap progressPayload =
      ((List.enumFrom i bs).filter (fun p => p.2.2)).map
        (fun p => ((p.1 : ℚ) + 1) / (total : ℚ) * 100) := by
  induction bs generalizing i with
  | nil => rfl
  | cons p rest ih =>
    obtain ⟨f, ok⟩ := p
    cases ok <;>
      simp [uploadLoop, ih, progressPayload, List.filterMap_cons, List.filter_cons,
        List.enumFrom]

/-- C1: a nonempty batch of which a subset succeeds grows the listing by
exactly the successful records, prepended in batch order to the front of
the previous listing; exactly one aggregate success toast carries the
success count (also when it is zero); and the failure toasts name
exactly the failing files, one each. -/
theorem handleFileUpload_batch (sel : String) (email : Option String) (now : Nat)
    (batch : List (UploadFile × Bool)) (prev : List FileItem) (hne : batch ≠ []) :
    (handleFileUpload sel email now batch prev).1 =
      ((batch.filter (fun p => p.2)).map
        (fun p => mkUploadedItem sel email now p.1 (mkKey sel p.1.name))) ++ prev ∧
    (handleFileUpload sel email now batch prev).1.length =
      (batch.filter (fun p => p.2)).length + prev.length ∧
    (handleFileUpload sel email now batch prev).2.filterMap successPayload =
      [(batch.filter (fun p => p.2)).length] ∧
    (handleFileUpload sel email now batch prev).2.filterMap failPayload =
      (batch.filter (fun p => !p.2)).map (fun p => p.1.name) := by
  have hb : batch.isEmpty = false := by
    cases batch with
    | nil => exact absurd rfl hne
    | cons a l => rfl
  refine ⟨?_, ?_, ?_, ?_⟩ <;>
    simp [handleFileUpload, hb, uploadLoop_items, uploadLoop_success, uploadLoop_fails,
      List.filterMap_append, List.filterMap_cons, successPayload, failPayload]

/-- Witness for C1 on a concrete two-file batch with one success and one
failure. -/
theorem handleFileUpload_batch_wit :
    (handleFileUpload "all" (some "u") 0 demoBatch []).1 =
      ((demoBatch.filter (fun p => p.2)).map
        (fun p => mkUploadedItem "all" (some "u") 0 p.1 (mkKey "all" p.1.name))) ++ [] ∧
    (handleFileUpload "all" (some "u") 0 demoBatch []).1.length =
      (demoBatch.filter (fun p => p.2)).length + List.length ([] : List FileItem) ∧
    (handleFileUpload "all" (some "u") 0 demoBatch []).2.filterMap successPayload =
      [(demoBatch.filter (fun p => p.2)).length] ∧
    (handleFileUpload "all" (some "u") 0 demoBatch []).2.filterMap failPayload =
      (demoBatch.filter (fun p => !p.2)).map (fun p => p.1.name) :=
  handleFileUpload_batch "all" (some "u") 0 demoBatch [] (by decide)

/-- C7 counterexample: a one-file batch whose upload fails emits no
progress event at all, although the claim requires a progress report of
100 percent after that processed file; the continue on failure skips the
progress update. -/
theorem upload_progress_cex :
    (handleFileUpload "all" (some "u") 0 [(⟨"a.txt", 1⟩, false)] []).2 =
      [UEvent.failToast "a.txt", UEvent.successToast 0, UEvent.panelClosed] := by
  rfl

/-- C7 (amended): progress is reported exactly after each successfully
uploaded file, with value ((i + 1) / total) * 100 where i is that file's
zero-based position in the batch and total the batch size; failing files
produce no progress report. -/
theorem upload_progress_spec (sel : String) (email : Option String) (now : Nat)
    (batch : List (UploadFile × Bool)) (prev : List FileItem) (hne : batch ≠ []) :
    (handleFileUpload sel email now batch prev).2.filterMap progressPayload =
      ((batch.enum).filter (fun p => p.2.2)).map
        (fun p => ((p.1 : ℚ) + 1) / (batch.length : ℚ) * 100) := by
  have hb : batch.isEmpty = false := by
    cases batch with
    | nil => exact absurd rfl hne
    | cons a l => rfl
  simp [handleFileUpload, hb, List.filterMap_append, List.filterMap_cons,
    uploadLoop_progress, progressPayload, List.enum]

/-- Witness for the amended C7 theorem on the concrete mixed batch. -/
theorem upload_progress_spec_wit :
    (handleFileUpload "all" (some "u") 0 demoBatch []).2.filterMap progressPayload =
      ((demoBatch.enum).filter (fun p => p.2.2)).map
        (fun p => ((p.1 : ℚ) + 1) / (demoBatch.length : ℚ) * 100) :=
  upload_progress_spec "all" (some "u") 0 demoBatch [] (by decide)

/-- C3 counterexample: at 1048575 bytes the two-decimal rounding pushes
the displayed magnitude to exactly 1024 in unit KB, so the displayed
magnitude is not below 1024 although the byte count is at least 1024. -/
theorem formatFileSize_cex :
    formatFileSize 1048575 = (1024, some "KB") ∧ ¬((1024 : ℚ) < 1024) := by
  have hlog : Nat.log 1024 1048575 = 1 :=
    Nat.log_eq_of_pow_le_of_lt_pow (by norm_num) (by norm_num)
  constructor
  · have h1 : formatFileSize 1048575 = (round2 ((1048575 : ℚ) / 1024 ^ 1), sizes[1]?) := by
      simp [formatFileSize, hlog]
    rw [h1]
    have hfl : ⌊(1048575 : ℚ) / 1024 ^ 1 * 100 + 1 / 2⌋ = 102400 := by
      rw [Int.floor_eq_iff]
      constructor <;> norm_num
    simp only [round2, hfl, sizes]
    norm_num
  · norm_num

/-- C3 (amended): zero formats as zero Bytes; for any positive byte
count below 1024 to the fourth the unit index is the base-1024 integer
logarithm, which stays inside the unit table and is the largest index
whose exact magnitude is at least 1; the exact magnitude lies in the
half-open range from 1 to 1024, while the displayed magnitude is its
two-decimal rounding and hence lies in the closed range from 1 to 1024,
attaining 1024 at the counterexample; byte counts below 1024 use the
Bytes unit.  At 1024 to the fourth and beyond the computed index leaves
the unit table. -/
theorem formatFileSize_spec (b : Nat) :
    (b = 0 → formatFileSize b = (0, some "Bytes")) ∧
    (0 < b → b < 1024 ^ 4 →
      (formatFileSize b).2 = sizes[Nat.log 1024 b]? ∧
      Nat.log 1024 b ≤ 3 ∧
      1024 ^ Nat.log 1024 b ≤ b ∧
      b < 1024 ^ (Nat.log 1024 b + 1) ∧
      1 ≤ (b : ℚ) / 1024 ^ Nat.log 1024 b ∧
      (b : ℚ) / 1024 ^ Nat.log 1024 b < 1024 ∧
      (formatFileSize b).1 = round2 ((b : ℚ) / 1024 ^ Nat.log 1024 b) ∧
      1 ≤ (formatFileSize b).1 ∧ (formatFileSize b).1 ≤ 1024 ∧
      (b < 1024 → (formatFileSize b).2 = some "Bytes")) := by
  constructor
  · intro hb
    subst hb
    rfl
  · intro hb hlt
    have hbne : b ≠ 0 := hb.ne'
    have hle : 1024 ^ Nat.log 1024 b ≤ b := Nat.pow_log_le_self 1024 hbne
    have hlt2 : b < 1024 ^ (Nat.log 1024 b + 1) :=
      Nat.lt_pow_succ_log_self (by norm_num) b
    have hi3 : Nat.log 1024 b ≤ 3 := by
      by_contra hcon
      push_neg at hcon
      have h4 : (1024 : ℕ) ^ 4 ≤ 1024 ^ Nat.log 1024 b :=
        Nat.pow_le_pow_right (by norm_num) hcon
      omega
    have hpos : (0 : ℚ) < 1024 ^ Nat.log 1024 b := by positivity
    have hmag1 : 1 ≤ (b : ℚ) / 1024 ^ Nat.log 1024 b := by
      rw [one_le_div hpos]
      exact_mod_cast hle
    have hmag2 : (b : ℚ) / 1024 ^ Nat.log 1024 b < 1024 := by
      rw [div_lt_iff₀ hpos]
      have hc : (b : ℚ) < 1024 ^ (Nat.log 1024 b + 1) := by exact_mod_cast hlt2
      calc (b : ℚ) < 1024 ^ (Nat.log 1024 b + 1) := hc
        _ = 1024 * 1024 ^ Nat.log 1024 b := by ring
    have hsnd : (formatFileSize b).2 = sizes[Nat.log 1024 b]? := by
      simp [formatFileSize, hbne]
    have hfst : (formatFileSize b).1 = round2 ((b : ℚ) / 1024 ^ Nat.log 1024 b) := by
      simp [formatFileSize, hbne]
    have hr1 : 1 ≤ round2 ((b : ℚ) / 1024 ^ Nat.log 1024 b) := by
      unfold round2
      rw [le_div_iff₀ (by norm_num : (0 : ℚ) < 100)]
      have hfl : (100 : ℤ) ≤ ⌊(b : ℚ) / 1024 ^ Nat.log 1024 b * 100 + 1 / 2⌋ := by
        rw [Int.le_floor]
        push_cast
        nlinarith [hmag1]
      calc (1 : ℚ) * 100 = ((100 : ℤ) : ℚ) := by norm_num
        _ ≤ _ := by exact_mod_cast hfl
    have hr2 : round2 ((b : ℚ) / 1024 ^ Nat.log 1024 b) ≤ 1024 := by
      unfold round2
      rw [div_le_iff₀ (by norm_num : (0 : ℚ) < 100)]
      have hfl : ⌊(b : ℚ) / 1024 ^ Nat.log 1024 b * 100 + 1 / 2⌋ < 102401 := by
        rw [Int.floor_lt]
        push_cast
        nlinarith [hmag2]
      have hfl2 : ⌊(b : ℚ) / 1024 ^ Nat.log 1024 b * 100 + 1 / 2⌋ ≤ 102400 := by omega
      calc ((⌊(b : ℚ) / 1024 ^ Nat.log 1024 b * 100 + 1 / 2⌋ : ℤ) : ℚ)
          ≤ ((102400 : ℤ) : ℚ) := by exact_mod_cast hfl2
        _ = 1024 * 100 := by norm_num
    refine ⟨hsnd, hi3, hle, hlt2, hmag1, hmag2, hfst, ?_, ?_, ?_⟩
    · rw [hfst]; exact hr1
    · rw [hfst]; exact hr2
    · intro hsm
      have hz : Nat.log 1024 b = 0 := Nat.log_eq_zero_iff.mpr (Or.inl hsm)
      rw [hsnd, hz]
      rfl

/-- Witness for the amended C3 theorem at 0 bytes and at 2048 bytes. -/
theorem formatFileSize_spec_wit :
    formatFileSize 0 = (0, some "Bytes") ∧
    ((formatFileSize 2048).2 = sizes[Nat.log 1024 2048]? ∧
      Nat.log 1024 2048 ≤ 3 ∧
      1024 ^ Nat.log 1024 2048 ≤ 2048 ∧
      2048 < 1024 ^ (Nat.log 1024 2048 + 1) ∧
      1 ≤ ((2048 : ℕ) : ℚ) / 1024 ^ Nat.log 1024 2048 ∧
      ((2048 : ℕ) : ℚ) / 1024 ^ Nat.log 1024 2048 < 1024 ∧
      (formatFileSize 2048).1 = round2 (((2048 : ℕ) : ℚ) / 1024 ^ Nat.log 1024 2048) ∧
      1 ≤ (formatFileSize 2048).1 ∧ (formatFileSize 2048).1 ≤ 1024 ∧
      (2048 < 1024 → (formatFileSize 2048).2 = some "Bytes")) :=
  ⟨(formatFileSize_spec 0).1 rfl,
   (formatFileSize_spec 2048).2 (by decide) (by decide)⟩

theorem getFolderFromPath_no_slash (s : String) (h : ('/' : Char) ∉ s.data) :
    getFolderFromPath s = "Root" := by
  simp [getFolderFromPath, splitOnChar_of_not_mem ('/' : Char) s.data h]

theorem getFolderFromPath_prepend (sel fname : String) (h : ('/' : Char) ∉ sel.data) :
    getFolderFromPath (sel ++ "/" ++ fname) = sel := by
  have hdata : (sel ++ "/" ++ fname).data = sel.data ++ '/' :: fname.data := by
    rw [String.data_append, String.data_append]
    simp
  have hlen : 0 < (splitOnChar '/' fname.data).length :=
    List.length_pos.mpr (splitOnChar_ne_nil '/' fname.data)
  simp [getFolderFromPath, hdata, splitOnChar_append ('/' : Char) sel.data fname.data h,
    hlen]

/-- C9 counterexample: after creating a folder literally named A/B
(which folder creation accepts), uploading f.txt into it yields a record
whose path is A/B/f.txt but whose folder field is A/B, while the first
slash-separated segment of the path is A, so the folder field is not the
stated function of the path. -/
theorem folder_derivation_cex :
    (mkUploadedItem "A/B" (some "u") 0 ⟨"f.txt", 1⟩ (mkKey "A/B" "f.txt")).path =
      some "A/B/f.txt" ∧
    (mkUploadedItem "A/B" (some "u") 0 ⟨"f.txt", 1⟩ (mkKey "A/B" "f.txt")).folder =
      some "A/B" ∧
    getFolderFromPath "A/B/f.txt" = "A" ∧
    ¬ folderInvariant (mkUploadedItem "A/B" (some "u") 0 ⟨"f.txt", 1⟩ (mkKey "A/B" "f.txt")) ∧
    handleFolderCreate folders "A/B" =
      (folders ++ ["A/B"], [FEvent.folderCreatedToast "A/B"]) := by
  refine ⟨by decide, by decide, by decide, ?_, by decide⟩
  intro hinv
  have h := hinv "A/B/f.txt" (by decide)
  revert h
  decide

/-- C9 (amended): every record built by the listing loader satisfies the
folder-from-path derivation, and every record built by a successful
upload satisfies it provided the selected folder name contains no slash
and, when no folder is selected (the all sentinel), the uploaded file
name contains no slash. -/
theorem folder_derivation (email : Option String) (nowT : Nat) (e : StorageEntry)
    (sel : String) (now : Nat) (f : UploadFile)
    (h1 : ('/' : Char) ∉ sel.data)
    (h2 : sel = "all" → ('/' : Char) ∉ f.name.data) :
    folderInvariant (loadItem email nowT e) ∧
    folderInvariant (mkUploadedItem sel email now f (mkKey sel f.name)) := by
  constructor
  · intro p hp
    simp only [loadItem] at hp
    injection hp with hp
    subst hp
    rfl
  · intro p hp
    by_cases hall : sel = "all"
    · simp only [mkUploadedItem, mkKey, hall, if_pos] at hp ⊢
      injection hp with hp
      subst hp
      simp [getFolderFromPath_no_slash f.name (h2 hall)]
    · simp only [mkUploadedItem, mkKey, hall, if_neg, if_false] at hp ⊢
      injection hp with hp
      subst hp
      rw [getFolderFromPath_prepend sel f.name h1]

/-- Witness for the amended C9 theorem: a concrete listing entry and a
concrete upload of report.pdf into the Design folder. -/
theorem folder_derivation_wit :
    folderInvariant (loadItem (some "u") 3 ⟨some "e1", "Design/spec.pdf", some 7, some 5⟩) ∧
    folderInvariant
      (mkUploadedItem "Design" (some "u") 0 ⟨"report.pdf", 2048⟩
        (mkKey "Design" "report.pdf")) :=
  folder_derivation (some "u") 3 ⟨some "e1", "Design/spec.pdf", some 7, some 5⟩
    "Design" 0 ⟨"report.pdf", 2048⟩ (by decide) (by decide)

end FileManager


